import Mathlib

/-!
Shallow embedding of the `automarking` package (files `automarking/core.py` and
`automarking/__init__.py`) together with theorems settling the specification
claims about it.  Python strings are modelled as Lean `String`s (converted to
`List Char` for character-level operations), Python regular expressions as
Mathlib `RegularExpression Char` values with `re.search` semantics modelled by
`reSearch`, byte payloads as `List Nat`, and Python exceptions as an explicit
`PyError` type threaded through `Except`.
-/

open RegularExpression

/-- Bytes of a file inside an archive (`BytesIO` payloads in the source). -/
abbrev ByteData := List Nat

/-- One archive entry: its name and its bytes. -/
abbrev Entry := String × ByteData

/-- Test whether `needle` occurs at the start of `hay` (character lists). -/
def startsWithB : List Char → List Char → Bool
  | [], _ => true
  | _ :: _, [] => false
  | a :: as, b :: bs => a == b && startsWithB as bs

/-- Python's substring test `needle in hay` on character lists. -/
def substrChars (needle hay : List Char) : Bool :=
  hay.tails.any (fun t => startsWithB needle t)

/-- Python's substring test `needle in hay` on strings. -/
def substrB (needle hay : String) : Bool :=
  substrChars needle.toList hay.toList

/-- Python's `hay.endswith(tail)` on strings, modelled on character lists. -/
def endsWithB (tail hay : String) : Bool :=
  startsWithB tail.toList.reverse hay.toList.reverse

/-- Python's `s.lower()`, modelled character-wise. -/
def lowerStr (s : String) : String :=
  String.mk (s.toList.map Char.toLower)

/-- Python's unanchored `re.search(p, s)`: some contiguous substring of `s`
is accepted by `p`.  Implemented executably by scanning all substrings with
Mathlib's derivative-based matcher `rmatch`. -/
def reSearch (p : RegularExpression Char) (s : List Char) : Bool :=
  s.tails.any (fun t => t.inits.any (fun pre => p.rmatch pre))

/-- Pattern of a `SubmissionSpec`: in the source `pattern` is either a single
regular expression or a Python `list` of regular expressions. -/
inductive SpecPattern : Type
  | single (p : RegularExpression Char)
  | list (ps : List (RegularExpression Char))

/-- Embedding of `automarking.core.SubmissionSpec` (construction stores the
three attributes unchanged). -/
structure SubmissionSpec : Type where
  identifier : String
  title : String
  pattern : SpecPattern

/-- Embedding of `SubmissionSpec.matches` (core.py lines 44-59): if the
pattern is a list, return whether any member is found in `filename` by
`re.search`; otherwise return whether the single pattern is found in
`filename`. -/
def SubmissionSpec.matches (spec : SubmissionSpec) (filename : String) : Bool :=
  match spec.pattern with
  | SpecPattern.list ps => ps.any (fun p => reSearch p filename.toList)
  | SpecPattern.single p => reSearch p filename.toList

/-- Split a character list on the path separator `/`. -/
def splitSegs : List Char → List (List Char)
  | [] => [[]]
  | c :: cs =>
    let rest := splitSegs cs
    if c = '/' then [] :: rest
    else
      match rest with
      | [] => [[c]]
      | s :: ss => (c :: s) :: ss

/-- Path segments of an entry path, splitting on the path separator.  This
definition follows the spec's words; the source has no such operation. -/
def pathSegments (s : String) : List String :=
  (splitSegs s.toList).map String.mk

/-- Final path segment of an entry path (the spec's "base name").  This
definition follows the spec's words; the source has no such operation. -/
def baseName (s : String) : String :=
  (pathSegments s).getLast?.getD ""

/-- Regular expression matching one literal string (concatenation of its
characters); used to build concrete `SubmissionSpec` inputs. -/
def litRe (s : String) : RegularExpression Char :=
  s.toList.foldr (fun c r => RegularExpression.comp (RegularExpression.char c) r)
    RegularExpression.epsilon

/-- Correctness of the executable search: `reSearch p s` holds exactly when
some decomposition `s = pre ++ mid ++ post` has `mid` in the language of `p`. -/
theorem reSearch_iff (p : RegularExpression Char) (s : List Char) :
    reSearch p s = true ↔
      ∃ pre mid post : List Char, s = pre ++ mid ++ post ∧ mid ∈ p.matches' := by
  unfold reSearch
  rw [List.any_eq_true]
  constructor
  · rintro ⟨t, ht, h⟩
    rw [List.any_eq_true] at h
    obtain ⟨mid, hmid, hm⟩ := h
    rw [List.mem_tails] at ht
    obtain ⟨pre, hpre⟩ := ht
    rw [List.mem_inits] at hmid
    obtain ⟨post, hpost⟩ := hmid
    refine ⟨pre, mid, post, ?_, ?_⟩
    · rw [List.append_assoc, hpost, hpre]
    · rwa [rmatch_iff_matches'] at hm
  · rintro ⟨pre, mid, post, hs, hm⟩
    refine ⟨mid ++ post, ?_, ?_⟩
    · rw [List.mem_tails]
      exact ⟨pre, by rw [hs, List.append_assoc]⟩
    · rw [List.any_eq_true]
      refine ⟨mid, ?_, ?_⟩
      · rw [List.mem_inits]
        exact ⟨post, rfl⟩
      · rwa [rmatch_iff_matches']

/-- Number of patterns a `SubmissionSpec` carries (one for the single form,
the list length for the list form); used to state the positional-sequence
claim. -/
def patternCount (spec : SubmissionSpec) : Nat :=
  match spec.pattern with
  | SpecPattern.single _ => 1
  | SpecPattern.list ps => ps.length

/-- Concrete single-pattern rule (regular expression `a`) used to refute the
base-name claim. -/
def specC1 : SubmissionSpec :=
  ⟨"id", "T", SpecPattern.single (RegularExpression.char 'a')⟩

/-- Concrete list-pattern rule (`['a', 'b']`) used to refute the
positional-sequence claim. -/
def specC8 : SubmissionSpec :=
  ⟨"id", "T", SpecPattern.list [RegularExpression.char 'a', RegularExpression.char 'b']⟩

/-- C1 (counterexample): the entry paths `a/b.txt` and `c/b.txt` share the
base name `b.txt`, yet the single-pattern rule with expression `a` matches
the first and not the second — `matches` searches the full entry path, so
the claim that the result depends only on the base name is false. -/
theorem c1_counterexample :
    baseName "a/b.txt" = baseName "c/b.txt" ∧
      specC1.matches "a/b.txt" = true ∧ specC1.matches "c/b.txt" = false := by
  refine ⟨by decide, by decide, by decide⟩

/-- C1 (amended): for every single-pattern rule, `matches` returns `true`
exactly when the regular expression is found by an unanchored search
somewhere in the FULL entry path (so the result may depend on the directory
prefix, not only on the base name). -/
theorem c1_single_pattern_searches_full_path (ident title : String)
    (p : RegularExpression Char) (f : String) :
    (SubmissionSpec.mk ident title (SpecPattern.single p)).matches f = true ↔
      ∃ pre mid post : List Char, f.toList = pre ++ mid ++ post ∧ mid ∈ p.matches' :=
  reSearch_iff p f.toList

/-- C8 (counterexample): the list-pattern rule `['a', 'b']` has two patterns
while the entry path `ab` has a single path segment, yet `matches` returns
`true` — the code never splits the path into segments, so the claim that a
segment-count mismatch forces a non-match is false. -/
theorem c8_counterexample :
    (pathSegments "ab").length ≠ patternCount specC8 ∧ specC8.matches "ab" = true := by
  refine ⟨by decide, by decide⟩

/-- C8 (amended): a rule whose pattern is a list treats the list as
alternatives: `matches` returns `true` exactly when some member pattern is
found by an unanchored search somewhere in the full entry path; path
segments and the pattern count are never consulted. -/
theorem c8_list_pattern_is_alternatives (ident title : String)
    (ps : List (RegularExpression Char)) (f : String) :
    (SubmissionSpec.mk ident title (SpecPattern.list ps)).matches f = true ↔
      ∃ p ∈ ps, ∃ pre mid post : List Char,
        f.toList = pre ++ mid ++ post ∧ mid ∈ p.matches' := by
  show (ps.any (fun p => reSearch p f.toList)) = true ↔ _
  rw [List.any_eq_true]
  constructor
  · rintro ⟨p, hp, hm⟩
    exact ⟨p, hp, (reSearch_iff p f.toList).1 hm⟩
  · rintro ⟨p, hp, hm⟩
    exact ⟨p, hp, (reSearch_iff p f.toList).2 hm⟩

/-- Storage of a `SubmissionPart`'s matched entries as the source keeps it:
`None`, a single `(filename, data)` tuple, or a list of such tuples. -/
inductive PartData : Type
  | none
  | one (e : Entry)
  | many (es : List Entry)
deriving DecidableEq

/-- Embedding of `automarking.core.SubmissionPart.__init__`: stores the spec,
no data, score `0` and empty feedback. -/
structure SubmissionPart : Type where
  spec : SubmissionSpec
  data : PartData
  score : Int
  feedback : List String

/-- Freshly constructed `SubmissionPart` for a spec. -/
def freshPart (spec : SubmissionSpec) : SubmissionPart :=
  ⟨spec, PartData.none, 0, []⟩

/-- Embedding of `SubmissionPart.add_data` (core.py lines 241-247): `None`
becomes a single tuple, a single tuple becomes a two-element list, a list is
appended to. -/
def SubmissionPart.add_data (p : SubmissionPart) (filename : String) (d : ByteData) :
    SubmissionPart :=
  { p with data :=
      match p.data with
      | PartData.none => PartData.one (filename, d)
      | PartData.one e => PartData.many [e, (filename, d)]
      | PartData.many es => PartData.many (es ++ [(filename, d)]) }

/-- Embedding of `SubmissionPart.__exit__` (core.py lines 252-255): three
`insert(0, ...)` calls put a marker line, the title and another marker line
in front of the accumulated feedback. -/
def SubmissionPart.exit (p : SubmissionPart) : SubmissionPart :=
  { p with feedback :=
      (List.insertIdx 0 (String.mk (List.replicate p.spec.title.length '#'))
        (List.insertIdx 0 p.spec.title
          (List.insertIdx 0 (String.mk (List.replicate p.spec.title.length '#'))
            p.feedback))) }

/-- Variant tag distinguishing archive-backed submissions from
`MissingSubmission`s. -/
inductive SubKind : Type
  | normal
  | missing
deriving DecidableEq

/-- Embedding of `automarking.core.Submission`: student number, score (0 on
construction), parts and feedback (both empty on construction). -/
structure Submission : Type where
  kind : SubKind
  studentnr : String
  score : Int
  parts : List SubmissionPart
  feedback : List String

/-- Embedding of `Submission.__exit__` (core.py lines 168-172): reset the
score to `0`, then for each part add its score and extend the feedback list
with the part's feedback. -/
def Submission.exit (s : Submission) : Submission :=
  s.parts.foldl
    (fun acc part =>
      { acc with
        score := acc.score + part.score
        feedback := acc.feedback ++ part.feedback })
    { s with score := 0 }

/-- Embedding of `MissingSubmission.__init__` (core.py lines 177-179): a plain
submission whose feedback holds the single explanatory message. -/
def missingSubmission (studentnr message : String) : Submission :=
  ⟨SubKind.missing, studentnr, 0, [], [message]⟩

/-- Python exception classes relevant to the adapters: the per-format
malformed-container classes plus a representative unrelated error. -/
inductive PyError : Type
  | tarError
  | badZipFile
  | badRarFile
  | notRarFile
  | osError
deriving DecidableEq

/-- Matching pass shared by the tar and zip adapters: fold over the entries,
adding each entry whose name the spec matches. -/
def mkPart (spec : SubmissionSpec) (entries : List Entry) : SubmissionPart :=
  entries.foldl
    (fun part e => if spec.matches e.1 then part.add_data e.1 e.2 else part)
    (freshPart spec)

/-- Archive-backed submission produced after a successful open: one part per
spec, in spec order, each populated from the container's entries. -/
def mkNormalSubmission (studentnr : String) (specs : List SubmissionSpec)
    (entries : List Entry) : Submission :=
  ⟨SubKind.normal, studentnr, 0, specs.map (fun spec => mkPart spec entries), []⟩

/-- Embedding of `TarSubmission.__init__` (core.py lines 184-195): `opened`
is the outcome of `tarfile.open`; only `tarfile.TarError` is caught, giving a
submission with no parts; other exceptions propagate. -/
def tarSubmission (studentnr : String) (specs : List SubmissionSpec)
    (opened : Except PyError (List Entry)) : Except PyError Submission :=
  match opened with
  | Except.ok entries => Except.ok (mkNormalSubmission studentnr specs entries)
  | Except.error PyError.tarError =>
      Except.ok ⟨SubKind.normal, studentnr, 0, [], []⟩
  | Except.error e => Except.error e

/-- Embedding of `ZipSubmission.__init__` (core.py lines 200-211): only
`zipfile.BadZipFile` is caught. -/
def zipSubmission (studentnr : String) (specs : List SubmissionSpec)
    (opened : Except PyError (List Entry)) : Except PyError Submission :=
  match opened with
  | Except.ok entries => Except.ok (mkNormalSubmission studentnr specs entries)
  | Except.error PyError.badZipFile =>
      Except.ok ⟨SubKind.normal, studentnr, 0, [], []⟩
  | Except.error e => Except.error e

/-- Embedding of `filename.replace('\\', '/')` in `RarSubmission.__init__`. -/
def normSep (s : String) : String :=
  String.mk (s.toList.map (fun c => if c = '\\' then '/' else c))

/-- Matching pass of the rar adapter: each entry name has its backslashes
replaced by forward slashes before matching, and the normalized name is the
one stored with the data. -/
def mkPartRar (spec : SubmissionSpec) (entries : List Entry) : SubmissionPart :=
  entries.foldl
    (fun part e =>
      let fn := normSep e.1
      if spec.matches fn then part.add_data fn e.2 else part)
    (freshPart spec)

/-- Embedding of `RarSubmission.__init__` (core.py lines 216-230): separators
are normalized per entry; `BadRarFile` and `NotRarFile` are caught. -/
def rarSubmission (studentnr : String) (specs : List SubmissionSpec)
    (opened : Except PyError (List Entry)) : Except PyError Submission :=
  match opened with
  | Except.ok entries =>
      Except.ok ⟨SubKind.normal, studentnr, 0,
        specs.map (fun spec => mkPartRar spec entries), []⟩
  | Except.error PyError.badRarFile =>
      Except.ok ⟨SubKind.normal, studentnr, 0, [], []⟩
  | Except.error PyError.notRarFile =>
      Except.ok ⟨SubKind.normal, studentnr, 0, [], []⟩
  | Except.error e => Except.error e

/-- Projection used to compare adapter outcomes concretely. -/
def okOf {α : Type} : Except PyError α → Option α
  | Except.ok a => some a
  | Except.error _ => none

/-- C2: a malformed container of a recognized format is graded as empty —
the per-format failure (TarError / BadZipFile / BadRarFile / NotRarFile)
yields a submission with zero parts and score 0, while every other error
propagates to the caller. -/
theorem c2_malformed_archive_recovers (n : String) (specs : List SubmissionSpec) :
    tarSubmission n specs (Except.error PyError.tarError) =
        Except.ok ⟨SubKind.normal, n, 0, [], []⟩ ∧
    zipSubmission n specs (Except.error PyError.badZipFile) =
        Except.ok ⟨SubKind.normal, n, 0, [], []⟩ ∧
    rarSubmission n specs (Except.error PyError.badRarFile) =
        Except.ok ⟨SubKind.normal, n, 0, [], []⟩ ∧
    rarSubmission n specs (Except.error PyError.notRarFile) =
        Except.ok ⟨SubKind.normal, n, 0, [], []⟩ ∧
    (∀ e : PyError, e ≠ PyError.tarError →
        tarSubmission n specs (Except.error e) = Except.error e) ∧
    (∀ e : PyError, e ≠ PyError.badZipFile →
        zipSubmission n specs (Except.error e) = Except.error e) ∧
    (∀ e : PyError, e ≠ PyError.badRarFile → e ≠ PyError.notRarFile →
        rarSubmission n specs (Except.error e) = Except.error e) := by
  refine ⟨rfl, rfl, rfl, rfl, ?_, ?_, ?_⟩
  · intro e he
    cases e
    all_goals first | rfl | exact absurd rfl he
  · intro e he
    cases e
    all_goals first | rfl | exact absurd rfl he
  · intro e h1 h2
    cases e
    all_goals first | rfl | exact absurd rfl h1 | exact absurd rfl h2

/-- Witness for C2: an unrelated error (`OSError`) is not caught by any of
the three adapters. -/
theorem c2_witness :
    tarSubmission "123456789" [] (Except.error PyError.osError) =
        Except.error PyError.osError ∧
    zipSubmission "123456789" [] (Except.error PyError.osError) =
        Except.error PyError.osError ∧
    rarSubmission "123456789" [] (Except.error PyError.osError) =
        Except.error PyError.osError :=
  ⟨(c2_malformed_archive_recovers "123456789" []).2.2.2.2.1 PyError.osError (by decide),
   (c2_malformed_archive_recovers "123456789" []).2.2.2.2.2.1 PyError.osError (by decide),
   (c2_malformed_archive_recovers "123456789" []).2.2.2.2.2.2 PyError.osError
     (by decide) (by decide)⟩

/-- Unfolded form of the finalization fold of `Submission.__exit__`. -/
theorem submission_exit_fold (parts : List SubmissionPart) (acc : Submission) :
    (parts.foldl
        (fun acc part =>
          { acc with
            score := acc.score + part.score
            feedback := acc.feedback ++ part.feedback })
        acc) =
      { acc with
        score := acc.score + (parts.map SubmissionPart.score).sum
        feedback := acc.feedback ++ (parts.map SubmissionPart.feedback).flatten } := by
  induction parts generalizing acc with
  | nil => simp
  | cons p ps ih =>
    simp only [List.foldl_cons, List.map_cons, List.sum_cons, List.flatten_cons, ih]
    congr 1
    · rw [add_assoc]
    · rw [List.append_assoc]

/-- C3 (counterexample): a `MissingSubmission` is a Submission, and its
finalization leaves its pre-existing message in place — the resulting
feedback (`["No submission"]`) is not the concatenation of its (zero)
parts' feedback blocks (`[]`), so finalization does not SET the feedback to
that concatenation. -/
theorem c3_counterexample :
    ((missingSubmission "123456789" "No submission").exit).feedback ≠
      (((missingSubmission "123456789" "No submission").parts.map
          SubmissionPart.feedback).flatten) := by
  decide

/-- C3 (amended): finalization sets the total score to the sum of the parts'
scores and APPENDS, in part order, the parts' feedback blocks to the
submission's existing feedback; when the submission's feedback was empty
before finalization (as for archive-backed submissions) this equals exactly
the concatenation of the parts' feedback. -/
theorem c3_finalize_sums_scores_appends_feedback (s : Submission) :
    (s.exit).score = (s.parts.map SubmissionPart.score).sum ∧
    (s.exit).feedback = s.feedback ++ (s.parts.map SubmissionPart.feedback).flatten := by
  unfold Submission.exit
  rw [submission_exit_fold]
  exact ⟨by simp, rfl⟩

/-- C4: finalizing any part prefixes its accumulated feedback with the title
banner (a marker line of `#` repeated to the title's length, the title, the
same marker line again); in particular a part with zero matched entries
(fresh part, empty feedback) still yields exactly the banner. -/
theorem c4_part_banner (p : SubmissionPart) (spec : SubmissionSpec) :
    (p.exit).feedback =
      String.mk (List.replicate p.spec.title.length '#') :: p.spec.title ::
        String.mk (List.replicate p.spec.title.length '#') :: p.feedback ∧
    ((freshPart spec).exit).feedback =
      [String.mk (List.replicate spec.title.length '#'), spec.title,
        String.mk (List.replicate spec.title.length '#')] := by
  constructor
  · simp [SubmissionPart.exit, List.insertIdx_zero]
  · simp [SubmissionPart.exit, freshPart, List.insertIdx_zero]

/-- Fold `add_data` over a list of entries (n successive calls). -/
def addAll (p : SubmissionPart) (es : List Entry) : SubmissionPart :=
  es.foldl (fun p e => p.add_data e.1 e.2) p

/-- Expected shape of a part's stored data after its matched entries, as the
claim states it: `None` for zero, a single pair for one, a list in call
order for two or more. -/
def dataShapeOfList : List Entry → PartData
  | [] => PartData.none
  | [e] => PartData.one e
  | es => PartData.many es

/-- Embedding of the `mark` generator (`automarking/__init__.py` lines
15-32): for each submission, for each part, it yields the pair of the part
and the part's stored data (the part's scoped-entry value). -/
def markPairs (subs : List Submission) : List (SubmissionPart × PartData) :=
  (subs.map (fun s => s.parts.map (fun p => (p, p.data)))).flatten

/-- Adding entries to a part already holding a list appends them in order. -/
theorem addAll_data_many (es : List Entry) :
    ∀ (p : SubmissionPart) (acc : List Entry), p.data = PartData.many acc →
      (addAll p es).data = PartData.many (acc ++ es) := by
  induction es with
  | nil =>
    intro p acc h
    simpa [addAll] using h
  | cons e rest ih =>
    intro p acc h
    show (addAll (p.add_data e.1 e.2) rest).data = _
    rw [ih (p.add_data e.1 e.2) (acc ++ [e])
      (by simp [SubmissionPart.add_data, h])]
    simp

/-- Data shape is `None` exactly for the empty entry list. -/
theorem dataShapeOfList_eq_none (l : List Entry) :
    dataShapeOfList l = PartData.none ↔ l = [] := by
  cases l with
  | nil => simp [dataShapeOfList]
  | cons a t => cases t <;> simp [dataShapeOfList]

/-- Folding the guarded `add_data` of the matching pass equals folding the
plain `add_data` over the filtered entries. -/
theorem foldl_guard_filter (spec : SubmissionSpec) (entries : List Entry) :
    ∀ p : SubmissionPart,
      entries.foldl
          (fun part e => if spec.matches e.1 then part.add_data e.1 e.2 else part) p =
        addAll p (entries.filter (fun e => spec.matches e.1)) := by
  induction entries with
  | nil => intro p; rfl
  | cons e rest ih =>
    intro p
    by_cases h : spec.matches e.1
    · simp [List.foldl_cons, List.filter_cons, h, ih, addAll]
    · simp [List.foldl_cons, List.filter_cons, h, ih, addAll]

/-- The matching pass is `addAll` over the entries the spec matches. -/
theorem mkPart_eq_addAll_filter (spec : SubmissionSpec) (entries : List Entry) :
    mkPart spec entries =
      addAll (freshPart spec) (entries.filter (fun e => spec.matches e.1)) :=
  foldl_guard_filter spec entries (freshPart spec)

/-- Fresh part plus `n` `add_data` calls yields the claimed shape. -/
theorem addAll_fresh_shape (spec : SubmissionSpec) (es : List Entry) :
    (addAll (freshPart spec) es).data = dataShapeOfList es := by
  match es with
  | [] => rfl
  | [e] => rfl
  | e1 :: e2 :: rest =>
    show (addAll (((freshPart spec).add_data e1.1 e1.2).add_data e2.1 e2.2) rest).data = _
    rw [addAll_data_many rest _ [e1, e2]
      (by simp [freshPart, SubmissionPart.add_data])]
    rfl

/-- C10: after `n` calls to `add_data` a fresh part stores `None` for
`n = 0`, a single pair for `n = 1`, and the list of pairs in call order for
`n >= 2`; the matching pass leaves `None` exactly when no entry matched the
rule; and the `mark` generator yields each part paired with exactly that
stored data. -/
theorem c10_part_data_shape (spec : SubmissionSpec) (es entries : List Entry)
    (n : String) (specs : List SubmissionSpec) :
    (addAll (freshPart spec) es).data = dataShapeOfList es ∧
    ((mkPart spec entries).data = PartData.none ↔
      entries.filter (fun e => spec.matches e.1) = []) ∧
    markPairs [mkNormalSubmission n specs entries] =
      specs.map (fun sp => (mkPart sp entries, (mkPart sp entries).data)) := by
  refine ⟨addAll_fresh_shape spec es, ?_, ?_⟩
  · rw [mkPart_eq_addAll_filter, addAll_fresh_shape]
    exact dataShapeOfList_eq_none _
  · simp [markPairs, mkNormalSubmission, List.map_map, Function.comp]

/-- Concrete single-pattern rule recognising the literal `a/b`, used to show
the zip adapter does not normalize separators. -/
def specC9 : SubmissionSpec :=
  ⟨"id", "T", SpecPattern.single (litRe "a/b")⟩

/-- C9 (counterexample): two zip containers whose sole entry differs only in
its path separator (`a\b.txt` vs `a/b.txt`) give different matching results
for the rule recognising `a/b` — the zip adapter matches raw entry names,
so entry paths are not normalized before matching for every adapter. -/
theorem c9_counterexample :
    okOf ((zipSubmission "1" [specC9] (Except.ok [("a\\b.txt", [0])])).map
        (fun s => s.parts.map SubmissionPart.data)) ≠
      okOf ((zipSubmission "1" [specC9] (Except.ok [("a/b.txt", [0])])).map
        (fun s => s.parts.map SubmissionPart.data)) := by
  decide

/-- Normalizing path separators twice is the same as normalizing once. -/
theorem normSep_idem (s : String) : normSep (normSep s) = normSep s := by
  apply congrArg String.mk
  show ((s.toList.map (fun c => if c = '\\' then '/' else c)).map
      (fun c => if c = '\\' then '/' else c)) =
    s.toList.map (fun c => if c = '\\' then '/' else c)
  rw [List.map_map]
  apply List.map_congr_left
  intro c _
  by_cases h : c = '\\' <;> simp [h, Function.comp]

/-- The rar matching pass gives the same part whether or not the entry names
were already normalized. -/
theorem mkPartRar_norm (spec : SubmissionSpec) (entries : List Entry) :
    mkPartRar spec (entries.map (fun e => (normSep e.1, e.2))) =
      mkPartRar spec entries := by
  unfold mkPartRar
  rw [List.foldl_map]
  congr 1
  funext part e
  simp [normSep_idem]

/-- C9 (amended): only the rar adapter normalizes separators — it replaces
every backslash with a forward slash before matching, so a rar container
embedding either separator yields the same submission; the zip and tar
adapters match raw entry names (see the counterexample). -/
theorem c9_rar_normalizes_separators (n : String) (specs : List SubmissionSpec)
    (entries : List Entry) :
    rarSubmission n specs (Except.ok entries) =
      rarSubmission n specs
        (Except.ok (entries.map (fun e => (normSep e.1, e.2)))) := by
  simp [rarSubmission, mkPartRar_norm]

/-- Outcomes of opening one extracted container file with each of the three
archive libraries; which one is consulted depends on the file extension. -/
structure FileContent : Type where
  asTar : Except PyError (List Entry)
  asZip : Except PyError (List Entry)
  asRar : Except PyError (List Entry)

/-- Embedding of `filename[filename.rfind('.'):]`: the suffix starting at
the last dot, or (as Python's `rfind` returns `-1` without a dot) the last
character of the name. -/
def extFromLastDot (s : String) : String :=
  let cs := s.toList
  let afterRev := cs.reverse.takeWhile (fun c => !(c == '.'))
  if afterRev.length == cs.length then String.mk (cs.reverse.take 1).reverse
  else String.mk ('.' :: afterRev.reverse)

/-- Embedding of one iteration of the filename loop in
`BlackboardDataSource.__enter__` (core.py lines 97-123): a filename
containing the student number is dispatched on its extension (tar.bz2 and
tar.gz, zip, rar case-insensitively except `.tar.gz`; `.txt` skipped;
anything else a `MissingSubmission` naming the extension), updating the
accumulated submissions and the `submitted` flag. -/
def classifyEntry (specs : List SubmissionSpec) (studentnr : String)
    (acc : List Submission × Bool) (entry : String × FileContent) :
    Except PyError (List Submission × Bool) :=
  if substrB studentnr entry.1 then
    if endsWithB ".tar.bz2" (lowerStr entry.1) || endsWithB ".tar.gz" entry.1 then
      match tarSubmission studentnr specs entry.2.asTar with
      | Except.ok s => Except.ok (acc.1 ++ [s], true)
      | Except.error e => Except.error e
    else if endsWithB ".zip" (lowerStr entry.1) then
      match zipSubmission studentnr specs entry.2.asZip with
      | Except.ok s => Except.ok (acc.1 ++ [s], true)
      | Except.error e => Except.error e
    else if endsWithB ".rar" (lowerStr entry.1) then
      match rarSubmission studentnr specs entry.2.asRar with
      | Except.ok s => Except.ok (acc.1 ++ [s], true)
      | Except.error e => Except.error e
    else if endsWithB ".txt" entry.1 then
      Except.ok acc
    else
      Except.ok
        (acc.1 ++ [missingSubmission studentnr
          ("Unknown submission type " ++ extFromLastDot entry.1)], true)
  else Except.ok acc

/-- Filename loop of `__enter__` for one student over all outer entries. -/
def classifyEntries (specs : List SubmissionSpec) (studentnr : String) :
    List Submission × Bool → List (String × FileContent) →
      Except PyError (List Submission × Bool)
  | acc, [] => Except.ok acc
  | acc, entry :: rest =>
    match classifyEntry specs studentnr acc entry with
    | Except.ok next => classifyEntries specs studentnr next rest
    | Except.error e => Except.error e

/-- Per-student body of `__enter__` (core.py lines 96-125): run the filename
loop and, when no entry set the `submitted` flag, append a
`MissingSubmission` with the configured (or default) no-submission
message. -/
def classifyStudent (specs : List SubmissionSpec) (noSubMsg : Option String)
    (outer : List (String × FileContent)) (studentnr : String) :
    Except PyError (List Submission) :=
  match classifyEntries specs studentnr ([], false) outer with
  | Except.error e => Except.error e
  | Except.ok (subs, submitted) =>
    if submitted then Except.ok subs
    else Except.ok (subs ++ [missingSubmission studentnr (noSubMsg.getD "No submission")])

/-- Whole-roster part of `__enter__`: the per-student results in roster
order, concatenated. -/
def enterSubmissions (specs : List SubmissionSpec) (noSubMsg : Option String)
    (outer : List (String × FileContent)) :
    List Submission → List String → Except PyError (List Submission)
  | acc, [] => Except.ok acc
  | acc, student :: rest =>
    match classifyStudent specs noSubMsg outer student with
    | Except.ok subs => enterSubmissions specs noSubMsg outer (acc ++ subs) rest
    | Except.error e => Except.error e

/-- Container contents used in concrete classification examples. -/
def fcC6 : FileContent :=
  ⟨Except.error PyError.tarError, Except.ok [], Except.error PyError.osError⟩

/-- C6 (counterexample): a roster with the single student `12345678` whose
outer container holds two files containing that number (`12345678.zip` and
`12345678.docx`) produces TWO submissions for that student (a zip-backed
one and an unknown-extension `MissingSubmission`), so "exactly one
Submission per roster student" is false. -/
theorem c6_counterexample :
    (okOf (enterSubmissions [] none
        [("12345678.zip", fcC6), ("12345678.docx", fcC6)] [] ["12345678"])).map
      List.length = some 2 := by
  decide

/-- When no outer filename contains the student number, the filename loop
leaves the accumulator untouched. -/
theorem classifyEntries_no_match (specs : List SubmissionSpec) (studentnr : String)
    (outer : List (String × FileContent)) (acc : List Submission × Bool)
    (h : ∀ e ∈ outer, substrB studentnr e.1 = false) :
    classifyEntries specs studentnr acc outer = Except.ok acc := by
  induction outer generalizing acc with
  | nil => rfl
  | cons e rest ih =>
    have he : substrB studentnr e.1 = false := h e (List.mem_cons_self e rest)
    show (match classifyEntry specs studentnr acc e with
      | Except.ok next => classifyEntries specs studentnr next rest
      | Except.error e => Except.error e) = Except.ok acc
    rw [show classifyEntry specs studentnr acc e = Except.ok acc by
      simp [classifyEntry, he]]
    exact ih acc (fun x hx => h x (List.mem_cons_of_mem e hx))

/-- One loop iteration preserves "a set `submitted` flag means a nonempty
submission list". -/
theorem classifyEntry_preserves_nonempty (specs : List SubmissionSpec)
    (studentnr : String) (acc next : List Submission × Bool)
    (entry : String × FileContent)
    (h : classifyEntry specs studentnr acc entry = Except.ok next)
    (hacc : acc.2 = true → acc.1 ≠ []) : next.2 = true → next.1 ≠ [] := by
  unfold classifyEntry at h
  split at h
  · split at h
    · split at h
      · exact (Except.ok.inj h) ▸ (fun _ => by simp)
      · exact absurd h (by simp)
    · split at h
      · split at h
        · exact (Except.ok.inj h) ▸ (fun _ => by simp)
        · exact absurd h (by simp)
      · split at h
        · split at h
          · exact (Except.ok.inj h) ▸ (fun _ => by simp)
          · exact absurd h (by simp)
        · split at h
          · exact (Except.ok.inj h) ▸ hacc
          · exact (Except.ok.inj h) ▸ (fun _ => by simp)
  · exact (Except.ok.inj h) ▸ hacc

/-- The whole filename loop preserves the same invariant. -/
theorem classifyEntries_preserves_nonempty (specs : List SubmissionSpec)
    (studentnr : String) (outer : List (String × FileContent)) :
    ∀ (acc res : List Submission × Bool),
      classifyEntries specs studentnr acc outer = Except.ok res →
      (acc.2 = true → acc.1 ≠ []) → res.2 = true → res.1 ≠ [] := by
  induction outer with
  | nil =>
    intro acc res h hacc
    exact (Except.ok.inj h) ▸ hacc
  | cons e rest ih =>
    intro acc res h hacc
    revert h
    show (match classifyEntry specs studentnr acc e with
      | Except.ok next => classifyEntries specs studentnr next rest
      | Except.error e => Except.error e) = Except.ok res → _
    cases hcl : classifyEntry specs studentnr acc e with
    | error e => intro h; exact absurd h (by simp)
    | ok next =>
      intro h
      exact ih next res h
        (classifyEntry_preserves_nonempty specs studentnr acc next e hcl hacc)

/-- C6 (amended): every roster student yields AT LEAST one Submission (not
exactly one — see the counterexample): a student none of whose outer
filenames contain their number gets exactly a `MissingSubmission` with the
configured message (default `"No submission"`), which has score 0 and that
message as its only feedback line; a single matching filename with an
unrecognized extension gives a `MissingSubmission` naming the extension;
and a single matching `.txt` filename is ignored (yielding only the
no-submission `MissingSubmission`, not an error). -/
theorem c6_at_least_one_submission_per_student (specs : List SubmissionSpec)
    (noSubMsg : Option String) (outer : List (String × FileContent))
    (studentnr fn : String) (c : FileContent) (subs : List Submission) :
    ((∀ e ∈ outer, substrB studentnr e.1 = false) →
      classifyStudent specs noSubMsg outer studentnr =
        Except.ok [missingSubmission studentnr (noSubMsg.getD "No submission")]) ∧
    ((missingSubmission studentnr (noSubMsg.getD "No submission")).score = 0 ∧
      (missingSubmission studentnr (noSubMsg.getD "No submission")).feedback =
        [noSubMsg.getD "No submission"] ∧
      (missingSubmission studentnr (noSubMsg.getD "No submission")).kind =
        SubKind.missing) ∧
    (substrB studentnr fn = true →
      (endsWithB ".tar.bz2" (lowerStr fn) || endsWithB ".tar.gz" fn) = false →
      endsWithB ".zip" (lowerStr fn) = false →
      endsWithB ".rar" (lowerStr fn) = false →
      endsWithB ".txt" fn = false →
      classifyStudent specs noSubMsg [(fn, c)] studentnr =
        Except.ok [missingSubmission studentnr
          ("Unknown submission type " ++ extFromLastDot fn)]) ∧
    (substrB studentnr fn = true →
      (endsWithB ".tar.bz2" (lowerStr fn) || endsWithB ".tar.gz" fn) = false →
      endsWithB ".zip" (lowerStr fn) = false →
      endsWithB ".rar" (lowerStr fn) = false →
      endsWithB ".txt" fn = true →
      classifyStudent specs noSubMsg [(fn, c)] studentnr =
        Except.ok [missingSubmission studentnr (noSubMsg.getD "No submission")]) ∧
    (classifyStudent specs noSubMsg outer studentnr = Except.ok subs →
      subs ≠ []) := by
  refine ⟨?_, ⟨rfl, rfl, rfl⟩, ?_, ?_, ?_⟩
  · intro h
    unfold classifyStudent
    rw [classifyEntries_no_match specs studentnr outer ([], false) h]
    rfl
  · intro h1 h2 h3 h4 h5
    simp [classifyStudent, classifyEntries, classifyEntry, h1, h2, h3, h4, h5]
  · intro h1 h2 h3 h4 h5
    simp [classifyStudent, classifyEntries, classifyEntry, h1, h2, h3, h4, h5]
  · intro h
    unfold classifyStudent at h
    revert h
    cases hcl : classifyEntries specs studentnr ([], false) outer with
    | error e => intro h; exact absurd h (by simp)
    | ok res =>
      obtain ⟨subs1, submitted⟩ := res
      cases submitted with
      | true =>
        intro h
        simp only [if_pos rfl] at h
        have := classifyEntries_preserves_nonempty specs studentnr outer
          ([], false) (subs1, true) hcl (by simp)
        exact (Except.ok.inj h) ▸ this rfl
      | false =>
        intro h
        simp only [Bool.false_eq_true, if_false] at h
        rw [← Except.ok.inj h]
        simp

/-- Witness for C6: concrete students exercising the no-match, the
unknown-extension and the `.txt` branches, plus nonemptiness. -/
theorem c6_witness :
    classifyStudent [] none [("other.zip", fcC6)] "123456789" =
        Except.ok [missingSubmission "123456789" "No submission"] ∧
    (missingSubmission "123456789" "No submission").score = 0 ∧
    classifyStudent [] none [("12345678.docx", fcC6)] "12345678" =
        Except.ok [missingSubmission "12345678"
          ("Unknown submission type " ++ extFromLastDot "12345678.docx")] ∧
    classifyStudent [] none [("12345678.txt", fcC6)] "12345678" =
        Except.ok [missingSubmission "12345678" "No submission"] ∧
    ([missingSubmission "123456789" "No submission"] : List Submission) ≠ [] :=
  ⟨(c6_at_least_one_submission_per_student [] none [("other.zip", fcC6)]
      "123456789" "x" fcC6 []).1 (by decide),
   (c6_at_least_one_submission_per_student [] none [] "123456789" "x" fcC6 []).2.1.1,
   (c6_at_least_one_submission_per_student [] none [("12345678.docx", fcC6)]
      "12345678" "12345678.docx" fcC6 []).2.2.1 (by decide) (by decide) (by decide)
      (by decide) (by decide),
   (c6_at_least_one_submission_per_student [] none [("12345678.txt", fcC6)]
      "12345678" "12345678.txt" fcC6 []).2.2.2.1 (by decide) (by decide) (by decide)
      (by decide) (by decide),
   (c6_at_least_one_submission_per_student [] none [("other.zip", fcC6)]
      "123456789" "x" fcC6 [missingSubmission "123456789" "No submission"]).2.2.2.2
     ((c6_at_least_one_submission_per_student [] none [("other.zip", fcC6)]
        "123456789" "x" fcC6 []).1 (by decide))⟩

/-- Gradebook table: header row plus data rows (delimited tabular text read
by `DictReader` / written by `DictWriter`). -/
structure Table : Type where
  header : List String
  rows : List (List String)
deriving DecidableEq

/-- Row as a Python dict: association list with unique keys in insertion
order. -/
abbrev Row := List (String × String)

/-- Embedding of the header renaming in `__exit__` (core.py line 137): a
`Feedback to Learner` column becomes `Feedback to User`. -/
def renameField (fn : String) : String :=
  if fn = "Feedback to Learner" then "Feedback to User" else fn

/-- Embedding of the score-column scan (core.py lines 138-140): the LAST
fieldname containing `Total Pts:` wins. -/
def findScoreField (fieldnames : List String) : Option String :=
  fieldnames.foldl (fun acc fn => if substrB "Total Pts:" fn then some fn else acc) none

/-- Python dict assignment `d[k] = v` on an association list: replace the
value at an existing key in place, else append. -/
def dictInsert : Row → String → String → Row
  | [], k, v => [(k, v)]
  | kv :: rest, k, v =>
    if kv.1 == k then (k, v) :: rest
    else kv :: dictInsert rest k v

/-- Python dict construction from key/value pairs (later pairs overwrite
earlier ones, first-occurrence position kept), as `DictReader` builds each
row from the header and the row's values. -/
def dictOfPairs (ps : List (String × String)) : Row :=
  ps.foldl (fun d kv => dictInsert d kv.1 kv.2) []

/-- Python `del d[k]`. -/
def delKey (d : Row) (k : String) : Row :=
  d.filter (fun kv => !(kv.1 == k))

/-- Python `d[k]` / `k in d`: value at a key, if present. -/
def lookupRow (d : Row) (k : String) : Option String :=
  (d.find? (fun kv => kv.1 == k)).map (fun kv => kv.2)

/-- Python's `'\n'.join(...)`. -/
def joinNl : List String → String
  | [] => ""
  | [s] => s
  | s :: rest => s ++ "\n" ++ joinNl rest

/-- Value of the column named `fn` in a row, reading the row against the
header positionally as `DictReader` does. -/
def valueAt (header row : List String) (fn : String) : Option String :=
  lookupRow (header.zip row) fn

/-- Embedding of the body of the row loop in
`BlackboardDataSource.__exit__` (core.py lines 146-154): build the row
dict, drop a `Feedback to Learner` key, look up the student id (a missing
id key is Python's fatal `KeyError`, modelled as `none`), then either write
the resolved submission's score and joined feedback (a missing
`Feedback to User` output column would make `DictWriter.writerow` raise,
modelled as `none`) or write score `0`; finally emit one value per output
fieldname, absent keys becoming `DictWriter`'s empty-string `restval`. -/
def writeBackRow (header fieldnames : List String) (scoreField : String)
    (resolved : String → Option (Int × List String)) (vals : List String) :
    Option (List String) :=
  let line0 := dictOfPairs (header.zip vals)
  let line1 := delKey line0 "Feedback to Learner"
  match lookupRow line1 "Student ID" with
  | none => none
  | some sid =>
    match resolved sid with
    | some sc =>
      if fieldnames.contains "Feedback to User" then
        some (fieldnames.map (fun fn =>
          (lookupRow
            (dictInsert (dictInsert line1 scoreField (toString sc.1))
              "Feedback to User" (joinNl sc.2)) fn).getD ""))
      else none
    | none =>
      some (fieldnames.map (fun fn =>
        (lookupRow (dictInsert line1 scoreField "0") fn).getD ""))

/-- Process the rows one at a time, failing as soon as one row fails. -/
def mapRows (f : List String → Option (List String)) :
    List (List String) → Option (List (List String))
  | [] => some []
  | r :: rest =>
    match f r, mapRows f rest with
    | some r', some rest' => some (r' :: rest')
    | _, _ => none

/-- Embedding of `BlackboardDataSource.__exit__`'s table rewrite (core.py
lines 133-154): rename the feedback header, locate the score column (no
score column is the fatal `line[None]` path, modelled as `none`), rewrite
every row, and emit the table with the renamed header. -/
def writeBack (t : Table) (resolved : String → Option (Int × List String)) :
    Option Table :=
  let fieldnames := t.header.map renameField
  match findScoreField fieldnames with
  | none => none
  | some sf =>
    match mapRows (writeBackRow t.header fieldnames sf resolved) t.rows with
    | none => none
    | some rows => some ⟨fieldnames, rows⟩


/-- Looking up the key just assigned gives the assigned value. -/
theorem lookupRow_dictInsert_self (d : Row) (k v : String) :
    lookupRow (dictInsert d k v) k = some v := by
  induction d with
  | nil => simp [dictInsert, lookupRow]
  | cons kv rest ih =>
    by_cases h : kv.1 = k
    · simp [dictInsert, h, lookupRow]
    · rw [show dictInsert (kv :: rest) k v = kv :: dictInsert rest k v by
        simp [dictInsert, h]]
      unfold lookupRow
      rw [List.find?_cons_of_neg _ (by simpa using h)]
      exact ih

/-- Assignment at one key leaves lookups at other keys unchanged. -/
theorem lookupRow_dictInsert_ne (d : Row) (k v fn : String) (h : fn ≠ k) :
    lookupRow (dictInsert d k v) fn = lookupRow d fn := by
  induction d with
  | nil =>
    unfold dictInsert lookupRow
    rw [List.find?_cons_of_neg _ (by simpa using Ne.symm h)]
  | cons kv rest ih =>
    by_cases hk : kv.1 = k
    · rw [show dictInsert (kv :: rest) k v = (k, v) :: rest by simp [dictInsert, hk]]
      unfold lookupRow
      rw [List.find?_cons_of_neg _ (by simpa using Ne.symm h),
        List.find?_cons_of_neg _ (by simpa [hk] using Ne.symm h)]
    · rw [show dictInsert (kv :: rest) k v = kv :: dictInsert rest k v by
        simp [dictInsert, hk]]
      by_cases hf : kv.1 = fn
      · unfold lookupRow
        rw [List.find?_cons_of_pos _ (by simpa using hf),
          List.find?_cons_of_pos _ (by simpa using hf)]
      · unfold lookupRow
        rw [List.find?_cons_of_neg _ (by simpa using hf),
          List.find?_cons_of_neg _ (by simpa using hf)]
        exact ih

/-- Deleting one key leaves lookups at other keys unchanged. -/
theorem lookupRow_delKey_ne (d : Row) (k fn : String) (h : fn ≠ k) :
    lookupRow (delKey d k) fn = lookupRow d fn := by
  induction d with
  | nil => rfl
  | cons kv rest ih =>
    by_cases hk : kv.1 = k
    · rw [show delKey (kv :: rest) k = delKey rest k by
        simp [delKey, List.filter_cons, hk]]
      rw [ih]
      have hne : kv.1 ≠ fn := by rw [hk]; exact Ne.symm h
      rw [show lookupRow (kv :: rest) fn = lookupRow rest fn by
        unfold lookupRow; rw [List.find?_cons_of_neg _ (by simpa using hne)]]
    · rw [show delKey (kv :: rest) k = kv :: delKey rest k by
        simp [delKey, List.filter_cons, hk]]
      by_cases hf : kv.1 = fn
      · unfold lookupRow
        rw [List.find?_cons_of_pos _ (by simpa using hf),
          List.find?_cons_of_pos _ (by simpa using hf)]
      · unfold lookupRow
        rw [List.find?_cons_of_neg _ (by simpa using hf),
          List.find?_cons_of_neg _ (by simpa using hf)]
        exact ih

/-- Assigning a key absent from the dict appends it. -/
theorem dictInsert_notmem (d : Row) (k v : String)
    (h : ∀ kv ∈ d, kv.1 ≠ k) : dictInsert d k v = d ++ [(k, v)] := by
  induction d with
  | nil => rfl
  | cons kv rest ih =>
    have hk : kv.1 ≠ k := h kv (List.mem_cons_self kv rest)
    rw [show dictInsert (kv :: rest) k v = kv :: dictInsert rest k v by
      simp [dictInsert, hk]]
    rw [ih (fun x hx => h x (List.mem_cons_of_mem kv hx))]
    rfl

/-- Building a dict from pairs with pairwise-distinct keys reproduces the
pairs unchanged. -/
theorem dictOfPairs_nodup (ps : List (String × String))
    (h : (ps.map Prod.fst).Nodup) : dictOfPairs ps = ps := by
  suffices haux : ∀ (qs : List (String × String)) (acc : Row),
      (qs.map Prod.fst).Nodup → (∀ kv ∈ qs, ∀ kv2 ∈ acc, kv2.1 ≠ kv.1) →
      qs.foldl (fun d kv => dictInsert d kv.1 kv.2) acc = acc ++ qs by
    simpa using haux ps [] h (by simp)
  intro qs
  induction qs with
  | nil => intro acc _ _; simp
  | cons kv rest ih =>
    intro acc hnd hdisj
    rw [List.map_cons, List.nodup_cons] at hnd
    simp only [List.foldl_cons]
    rw [dictInsert_notmem acc kv.1 kv.2
      (fun x hx => hdisj kv (List.mem_cons_self kv rest) x hx)]
    rw [ih (acc ++ [(kv.1, kv.2)]) hnd.2 ?_]
    · simp
    · intro kv1 h1 kv2 h2
      rcases List.mem_append.mp h2 with h2 | h2
      · exact hdisj kv1 (List.mem_cons_of_mem kv h1) kv2 h2
      · have h2' : kv2 = (kv.1, kv.2) := by simpa using h2
        subst h2'
        intro he
        exact hnd.1 (by
          rw [show kv.1 = kv1.1 from he]
          exact List.mem_map_of_mem Prod.fst h1)

/-- Lookup in a header/value zip where the values are a function of the
field name: the first occurrence of the name yields its image. -/
theorem lookupRow_zip_map (fns : List String) (g : String → String) (fn : String)
    (h : fn ∈ fns) : lookupRow (fns.zip (fns.map g)) fn = some (g fn) := by
  induction fns with
  | nil => cases h
  | cons f0 rest ih =>
    rw [List.map_cons, List.zip_cons_cons]
    by_cases hf : f0 = fn
    · unfold lookupRow
      rw [List.find?_cons_of_pos _ (by simpa using hf)]
      simp [hf]
    · have hm : fn ∈ rest := by
        rcases List.mem_cons.mp h with h1 | h1
        · exact absurd h1.symm hf
        · exact h1
      unfold lookupRow
      rw [List.find?_cons_of_neg _ (by simpa using hf)]
      exact ih hm

/-- Lookup of an absent field name in a header/value zip fails. -/
theorem lookupRow_zip_notmem (fns : List String) (vals : List String) (fn : String)
    (h : fn ∉ fns) : lookupRow (fns.zip vals) fn = none := by
  induction fns generalizing vals with
  | nil => rfl
  | cons f0 rest ih =>
    cases vals with
    | nil => rfl
    | cons v vs =>
      have hf : f0 ≠ fn := fun he => h (he ▸ List.mem_cons_self f0 rest)
      rw [List.zip_cons_cons]
      unfold lookupRow
      rw [List.find?_cons_of_neg _ (by simpa using hf)]
      exact ih vs (fun hm => h (List.mem_cons_of_mem f0 hm))

/-- Lookup of a present field name in a header/value zip succeeds when the
row has a value for every header field. -/
theorem lookupRow_zip_isSome (fns vals : List String) (fn : String)
    (hm : fn ∈ fns) (hlen : vals.length = fns.length) :
    ∃ v, lookupRow (fns.zip vals) fn = some v := by
  induction fns generalizing vals with
  | nil => cases hm
  | cons f0 rest ih =>
    cases vals with
    | nil => simp at hlen
    | cons v vs =>
      rw [List.zip_cons_cons]
      by_cases hf : f0 = fn
      · refine ⟨v, ?_⟩
        unfold lookupRow
        rw [List.find?_cons_of_pos _ (by simpa using hf)]
        rfl
      · have hm2 : fn ∈ rest := by
          rcases List.mem_cons.mp hm with h1 | h1
          · exact absurd h1.symm hf
          · exact h1
        unfold lookupRow
        rw [List.find?_cons_of_neg _ (by simpa using hf)]
        exact ih vs hm2 (by simpa using hlen)

/-- Score-column scan facts: a found score field contains the marker and is
one of the fieldnames. -/
theorem findScoreField_spec (fns : List String) (sf : String)
    (h : findScoreField fns = some sf) :
    substrB "Total Pts:" sf = true ∧ sf ∈ fns := by
  suffices haux : ∀ (l : List String) (acc : Option String) (s : String),
      l.foldl (fun acc fn => if substrB "Total Pts:" fn then some fn else acc) acc =
        some s →
      (substrB "Total Pts:" s = true ∧ s ∈ l) ∨ acc = some s by
    rcases haux fns none sf h with h1 | h1
    · exact h1
    · exact absurd h1 (by simp)
  intro l
  induction l with
  | nil => intro acc s h1; right; exact h1
  | cons fn rest ih =>
    intro acc s h1
    simp only [List.foldl_cons] at h1
    rcases ih _ s h1 with h2 | h2
    · exact Or.inl ⟨h2.1, List.mem_cons_of_mem fn h2.2⟩
    · by_cases hs : substrB "Total Pts:" fn = true
      · rw [if_pos hs] at h2
        have := Option.some.inj h2
        subst this
        exact Or.inl ⟨hs, List.mem_cons_self fn rest⟩
      · rw [if_neg hs] at h2
        right
        exact h2

/-- Renaming never produces the legacy feedback header. -/
theorem renameField_ne_ftl (fn : String) :
    renameField fn ≠ "Feedback to Learner" := by
  unfold renameField
  by_cases h : fn = "Feedback to Learner"
  · rw [if_pos h]; decide
  · rw [if_neg h]; exact h

/-- The legacy feedback header never survives renaming. -/
theorem ftl_notmem_rename (hdr : List String) :
    "Feedback to Learner" ∉ hdr.map renameField := by
  intro h
  obtain ⟨h0, _, he⟩ := List.mem_map.mp h
  exact renameField_ne_ftl h0 he

/-- A renamed fieldname other than the canonical feedback header was already
present, under that very name, in the original header. -/
theorem rename_of_ne_ftu (hdr : List String) (fn : String)
    (h : fn ∈ hdr.map renameField) (hne : fn ≠ "Feedback to User") :
    fn ∈ hdr ∧ fn ≠ "Feedback to Learner" := by
  obtain ⟨h0, hh0, he⟩ := List.mem_map.mp h
  by_cases hf : h0 = "Feedback to Learner"
  · exfalso
    apply hne
    rw [← he]
    unfold renameField
    rw [if_pos hf]
  · constructor
    · rw [← he]
      unfold renameField
      rw [if_neg hf]
      exact hh0
    · rw [← he]
      unfold renameField
      rw [if_neg hf]
      exact hf

/-- Renaming is the identity on a header without the legacy feedback
column. -/
theorem rename_id_of_no_ftl (l : List String)
    (h : "Feedback to Learner" ∉ l) : l.map renameField = l := by
  induction l with
  | nil => rfl
  | cons a rest ih =>
    rw [List.map_cons]
    have ha : a ≠ "Feedback to Learner" := fun he => h (he ▸ List.mem_cons_self a rest)
    rw [show renameField a = a by unfold renameField; rw [if_neg ha]]
    rw [ih (fun hm => h (List.mem_cons_of_mem a hm))]

/-- Row-by-row processing succeeds exactly pointwise. -/
theorem mapRows_forall2 (f : List String → Option (List String)) :
    ∀ (rows rows' : List (List String)), mapRows f rows = some rows' →
      List.Forall₂ (fun r r' => f r = some r') rows rows' := by
  intro rows
  induction rows with
  | nil =>
    intro rows' h
    rw [← Option.some.inj h]
    exact List.Forall₂.nil
  | cons r rest ih =>
    intro rows' h
    unfold mapRows at h
    cases hf : f r with
    | none => rw [hf] at h; exact absurd h (by simp)
    | some r' =>
      cases hm : mapRows f rest with
      | none => rw [hf, hm] at h; exact absurd h (by simp)
      | some rest' =>
        rw [hf, hm] at h
        rw [← Option.some.inj h]
        exact List.Forall₂.cons hf (ih rest' hm)

/-- Row-by-row processing that fixes every row fixes the row list. -/
theorem mapRows_self (g : List String → Option (List String)) :
    ∀ rows : List (List String), (∀ r ∈ rows, g r = some r) →
      mapRows g rows = some rows := by
  intro rows
  induction rows with
  | nil => intro _; rfl
  | cons r rest ih =>
    intro h
    unfold mapRows
    rw [h r (List.mem_cons_self r rest),
      ih (fun x hx => h x (List.mem_cons_of_mem r hx))]

/-- Full characterization of one rewritten gradebook row: the output has one
value per (renamed) fieldname; every column other than the score column and
the canonical feedback column keeps its input value; a resolved student id
writes the submission's score (as text) into the score column and the
joined feedback into the feedback column; an unresolved id writes score
`0`. -/
theorem writeBackRow_spec (header : List String)
    (resolved : String → Option (Int × List String)) (sf : String)
    (row out : List String)
    (hnd : (header.map renameField).Nodup)
    (hlen : row.length = header.length)
    (hsub : substrB "Total Pts:" sf = true)
    (hsfm : sf ∈ header.map renameField)
    (h : writeBackRow header (header.map renameField) sf resolved row = some out) :
    out.length = (header.map renameField).length ∧
    (∀ fn ∈ header.map renameField, fn ≠ sf → fn ≠ "Feedback to User" →
      valueAt (header.map renameField) out fn = valueAt header row fn) ∧
    (∀ sid, valueAt header row "Student ID" = some sid →
      (∀ sc : Int × List String, resolved sid = some sc →
        valueAt (header.map renameField) out sf = some (toString sc.1) ∧
        ("Feedback to User" ∈ header.map renameField →
          valueAt (header.map renameField) out "Feedback to User" =
            some (joinNl sc.2))) ∧
      (resolved sid = none →
        valueAt (header.map renameField) out sf = some "0")) := by
  have hndh : header.Nodup := List.Nodup.of_map renameField hnd
  have hsf_ne_ftu : sf ≠ "Feedback to User" := by
    intro he
    rw [he] at hsub
    exact absurd hsub (by decide)
  have hkeys : (header.zip row).map Prod.fst = header :=
    List.map_fst_zip header row (le_of_eq hlen.symm)
  have hline0 : dictOfPairs (header.zip row) = header.zip row :=
    dictOfPairs_nodup _ (by rw [hkeys]; exact hndh)
  simp only [writeBackRow] at h
  rw [hline0] at h
  cases hsid : lookupRow (delKey (header.zip row) "Feedback to Learner")
      "Student ID" with
  | none => rw [hsid] at h; exact absurd h (by simp)
  | some sid0 =>
    rw [hsid] at h
    dsimp only at h
    have hsid0 : valueAt header row "Student ID" = some sid0 := by
      rw [← hsid]
      unfold valueAt
      rw [lookupRow_delKey_ne _ _ _ (by decide)]
    cases hres : resolved sid0 with
    | some sc =>
      rw [hres] at h
      dsimp only at h
      cases hcont : (header.map renameField).contains "Feedback to User" with
      | false => rw [if_neg (by rw [hcont]; simp)] at h; exact absurd h (by simp)
      | true =>
        rw [if_pos (by rw [hcont])] at h
        have hout : out = (header.map renameField).map (fun fn =>
            (lookupRow
              (dictInsert
                (dictInsert (delKey (header.zip row) "Feedback to Learner") sf
                  (toString sc.1))
                "Feedback to User" (joinNl sc.2)) fn).getD "") :=
          (Option.some.inj h).symm
        subst hout
        refine ⟨by rw [List.length_map], ?_, ?_⟩
        · intro fn hfm hfsf hfftu
          obtain ⟨hfh, hfftl⟩ := rename_of_ne_ftu header fn hfm hfftu
          obtain ⟨v, hv⟩ := lookupRow_zip_isSome header row fn hfh hlen
          unfold valueAt
          rw [lookupRow_zip_map _ _ _ hfm]
          rw [lookupRow_dictInsert_ne _ _ _ _ hfftu,
            lookupRow_dictInsert_ne _ _ _ _ hfsf,
            lookupRow_delKey_ne _ _ _ hfftl, hv]
          rfl
        · intro sid hsid1
          have hsideq : sid = sid0 := (Option.some.inj (hsid0.symm.trans hsid1)).symm
          subst hsideq
          refine ⟨?_, ?_⟩
          · intro sc2 hsc2
            have hsceq : sc2 = sc := (Option.some.inj (hres.symm.trans hsc2)).symm
            subst hsceq
            constructor
            · unfold valueAt
              rw [lookupRow_zip_map _ _ _ hsfm]
              rw [lookupRow_dictInsert_ne _ _ _ _ hsf_ne_ftu,
                lookupRow_dictInsert_self]
              rfl
            · intro hftu
              unfold valueAt
              rw [lookupRow_zip_map _ _ _ hftu]
              rw [lookupRow_dictInsert_self]
              rfl
          · intro hnone
            rw [hres] at hnone
            exact absurd hnone (by simp)
    | none =>
      rw [hres] at h
      dsimp only at h
      have hout : out = (header.map renameField).map (fun fn =>
          (lookupRow
            (dictInsert (delKey (header.zip row) "Feedback to Learner") sf "0")
            fn).getD "") :=
        (Option.some.inj h).symm
      subst hout
      refine ⟨by rw [List.length_map], ?_, ?_⟩
      · intro fn hfm hfsf hfftu
        obtain ⟨hfh, hfftl⟩ := rename_of_ne_ftu header fn hfm hfftu
        obtain ⟨v, hv⟩ := lookupRow_zip_isSome header row fn hfh hlen
        unfold valueAt
        rw [lookupRow_zip_map _ _ _ hfm]
        rw [lookupRow_dictInsert_ne _ _ _ _ hfsf,
          lookupRow_delKey_ne _ _ _ hfftl, hv]
        rfl
      · intro sid hsid1
        have hsideq : sid = sid0 := (Option.some.inj (hsid0.symm.trans hsid1)).symm
        subst hsideq
        refine ⟨?_, ?_⟩
        · intro sc2 hsc2
          rw [hres] at hsc2
          exact absurd hsc2 (by simp)
        · intro _
          unfold valueAt
          rw [lookupRow_zip_map _ _ _ hsfm]
          rw [lookupRow_dictInsert_self]
          rfl

/-- C5 (amended): the rewrite preserves header-modulo-renaming, row count and
row order; every column other than the score column and the canonical
feedback column keeps its value verbatim in every row; resolved rows get
the submission's score and newline-joined feedback; unresolved rows get
score 0 — but an unresolved row's feedback is NOT left as-is when the input
column was `Feedback to Learner` (see the counterexample): that key is
deleted and the renamed column is refilled with the empty-string default. -/
theorem c5_write_back_rewrites_rows (t : Table)
    (resolved : String → Option (Int × List String)) (t' : Table) (sf : String)
    (hnd : (t.header.map renameField).Nodup)
    (hlen : ∀ r ∈ t.rows, r.length = t.header.length)
    (hsf : findScoreField (t.header.map renameField) = some sf)
    (hw : writeBack t resolved = some t') :
    t'.header = t.header.map renameField ∧
    t'.rows.length = t.rows.length ∧
    (∀ rr ∈ t.rows.zip t'.rows,
      (∀ fn ∈ t.header.map renameField, fn ≠ sf → fn ≠ "Feedback to User" →
        valueAt (t.header.map renameField) rr.2 fn = valueAt t.header rr.1 fn) ∧
      (∀ sid, valueAt t.header rr.1 "Student ID" = some sid →
        (∀ sc : Int × List String, resolved sid = some sc →
          valueAt (t.header.map renameField) rr.2 sf = some (toString sc.1) ∧
          ("Feedback to User" ∈ t.header.map renameField →
            valueAt (t.header.map renameField) rr.2 "Feedback to User" =
              some (joinNl sc.2))) ∧
        (resolved sid = none →
          valueAt (t.header.map renameField) rr.2 sf = some "0"))) := by
  obtain ⟨hsub, hsfm⟩ := findScoreField_spec _ _ hsf
  simp only [writeBack] at hw
  rw [hsf] at hw
  dsimp only at hw
  cases hmr : mapRows (writeBackRow t.header (t.header.map renameField) sf resolved)
      t.rows with
  | none => rw [hmr] at hw; exact absurd hw (by simp)
  | some rows' =>
    rw [hmr] at hw
    dsimp only at hw
    have ht' : t' = ⟨t.header.map renameField, rows'⟩ := (Option.some.inj hw).symm
    subst ht'
    have hfa := mapRows_forall2 _ _ _ hmr
    refine ⟨rfl, hfa.length_eq.symm, ?_⟩
    intro rr hrr
    obtain ⟨r1, r2⟩ := rr
    have hptw : writeBackRow t.header (t.header.map renameField) sf resolved r1 =
        some r2 := by
      rw [List.forall₂_iff_zip] at hfa
      exact hfa.2 hrr
    have hr1 : r1 ∈ t.rows := (List.of_mem_zip hrr).1
    obtain ⟨_, hframe, hcells⟩ :=
      writeBackRow_spec t.header resolved sf r1 r2 hnd (hlen r1 hr1) hsub hsfm hptw
    exact ⟨hframe, hcells⟩

/-- C5 (counterexample): with an input feedback column named
`Feedback to Learner`, a row whose student is NOT in the resolved mapping
has its feedback value `oldfb` replaced by the empty string (the key is
deleted and the renamed column refilled with the writer's default), so the
claim that unresolved rows keep their feedback value as-is is false. -/
theorem c5_counterexample :
    writeBack
        ⟨["Student ID", "X Total Pts: Y", "Feedback to Learner"],
          [["s1", "7", "oldfb"]]⟩ (fun _ => none) =
      some ⟨["Student ID", "X Total Pts: Y", "Feedback to User"],
        [["s1", "0", ""]]⟩ ∧
    ("" : String) ≠ "oldfb" := by
  refine ⟨by decide, by decide⟩

/-- Concrete gradebook table used to witness the write-back theorems. -/
def tC5w : Table :=
  ⟨["Student ID", "G [Total Pts: 100]", "Feedback to User", "Name"],
    [["s1", "3", "old", "Ann"], ["s2", "4", "keep", "Bob"]]⟩

/-- Concrete resolved mapping used to witness the write-back theorems. -/
def resolvedC5 : String → Option (Int × List String) :=
  fun s => if s = "s1" then some (5, ["Good", "Work"]) else none

/-- Output table of `writeBack` on the concrete witness input. -/
def tC5wOut : Table :=
  ⟨["Student ID", "G [Total Pts: 100]", "Feedback to User", "Name"],
    [["s1", "5", "Good\nWork", "Ann"], ["s2", "0", "keep", "Bob"]]⟩

/-- Witness for C5: on the concrete table, the untouched `Name` column of the
unresolved row keeps its value and the resolved row's score cell holds the
submission's score. -/
theorem c5_witness :
    writeBack tC5w resolvedC5 = some tC5wOut ∧
    valueAt (tC5w.header.map renameField) ["s2", "0", "keep", "Bob"] "Name" =
      valueAt tC5w.header ["s2", "4", "keep", "Bob"] "Name" ∧
    valueAt (tC5w.header.map renameField) ["s1", "5", "Good\nWork", "Ann"]
      "G [Total Pts: 100]" = some (toString (5 : Int)) := by
  refine ⟨by decide, ?_, ?_⟩
  · exact ((c5_write_back_rewrites_rows tC5w resolvedC5 tC5wOut "G [Total Pts: 100]"
      (by decide) (by decide) (by decide) (by decide)).2.2
        (["s2", "4", "keep", "Bob"], ["s2", "0", "keep", "Bob"]) (by decide)).1
      "Name" (by decide) (by decide) (by decide)
  · have hmain := c5_write_back_rewrites_rows tC5w resolvedC5 tC5wOut
      "G [Total Pts: 100]" (by decide) (by decide) (by decide) (by decide)
    have hrow := (hmain.2.2
      (["s1", "3", "old", "Ann"], ["s1", "5", "Good\nWork", "Ann"])
      (by decide)).2 "s1" (by decide)
    exact (hrow.1 (5, ["Good", "Work"]) (by decide)).1

/-- Deleting an absent key is a no-op. -/
theorem delKey_notmem (d : Row) (k : String) (h : ∀ kv ∈ d, kv.1 ≠ k) :
    delKey d k = d := by
  unfold delKey
  apply List.filter_eq_self.mpr
  intro kv hkv
  simpa using h kv hkv

/-- Each right member of a `Forall₂` relation has a related left member. -/
theorem forall2_exists_left {α β : Type} {R : α → β → Prop} :
    ∀ {l1 : List α} {l2 : List β}, List.Forall₂ R l1 l2 →
      ∀ b ∈ l2, ∃ a ∈ l1, R a b := by
  intro l1 l2 h
  induction h with
  | nil => intro b hb; cases hb
  | @cons a b l1' l2' hR _ ih =>
    intro b2 hb2
    rcases List.mem_cons.mp hb2 with hb2 | hb2
    · exact ⟨a, List.mem_cons_self a l1', hb2 ▸ hR⟩
    · obtain ⟨a2, ha2, hRa⟩ := ih b2 hb2
      exact ⟨a2, List.mem_cons_of_mem a ha2, hRa⟩

/-- Rewriting an already-rewritten gradebook row changes nothing: the row a
first pass produced is a fixed point of a second pass over the renamed
header with the same resolved mapping. -/
theorem writeBackRow_idem (header : List String)
    (resolved : String → Option (Int × List String)) (sf : String)
    (row out : List String)
    (hnd : (header.map renameField).Nodup)
    (hlen : row.length = header.length)
    (hsub : substrB "Total Pts:" sf = true)
    (h : writeBackRow header (header.map renameField) sf resolved row = some out) :
    writeBackRow (header.map renameField) (header.map renameField) sf resolved out =
      some out := by
  have hndh : header.Nodup := List.Nodup.of_map renameField hnd
  have hsf_ne_ftu : sf ≠ "Feedback to User" := by
    intro he; rw [he] at hsub; exact absurd hsub (by decide)
  have hsf_ne_sid : sf ≠ "Student ID" := by
    intro he; rw [he] at hsub; exact absurd hsub (by decide)
  have hkeys : (header.zip row).map Prod.fst = header :=
    List.map_fst_zip header row (le_of_eq hlen.symm)
  have hline0 : dictOfPairs (header.zip row) = header.zip row :=
    dictOfPairs_nodup _ (by rw [hkeys]; exact hndh)
  simp only [writeBackRow] at h ⊢
  rw [hline0] at h
  cases hsid : lookupRow (delKey (header.zip row) "Feedback to Learner")
      "Student ID" with
  | none => rw [hsid] at h; exact absurd h (by simp)
  | some sid0 =>
    rw [hsid] at h
    dsimp only at h
    have hsidmem : "Student ID" ∈ header := by
      by_contra hni
      rw [lookupRow_delKey_ne _ _ _ (by decide),
        lookupRow_zip_notmem header row _ hni] at hsid
      exact absurd hsid (by simp)
    have hsidfns : "Student ID" ∈ header.map renameField :=
      List.mem_map.mpr ⟨"Student ID", hsidmem, by decide⟩
    cases hres : resolved sid0 with
    | some sc =>
      rw [hres] at h
      dsimp only at h
      cases hcont : (header.map renameField).contains "Feedback to User" with
      | false => rw [if_neg (by rw [hcont]; simp)] at h; exact absurd h (by simp)
      | true =>
        rw [if_pos (by rw [hcont])] at h
        have hout := (Option.some.inj h).symm
        subst hout
        have hkeys2 : (((header.map renameField).zip
            ((header.map renameField).map (fun fn =>
              (lookupRow
                (dictInsert
                  (dictInsert (delKey (header.zip row) "Feedback to Learner") sf
                    (toString sc.1))
                  "Feedback to User" (joinNl sc.2)) fn).getD ""))).map Prod.fst) =
            header.map renameField :=
          List.map_fst_zip _ _ (le_of_eq (List.length_map _ _).symm)
        rw [dictOfPairs_nodup _ (by rw [hkeys2]; exact hnd)]
        rw [delKey_notmem _ _ (by
          intro kv hkv
          intro he
          exact ftl_notmem_rename header (he ▸ (List.of_mem_zip hkv).1))]
        rw [lookupRow_zip_map _ _ _ hsidfns]
        dsimp only
        rw [show (lookupRow
            (dictInsert
              (dictInsert (delKey (header.zip row) "Feedback to Learner") sf
                (toString sc.1))
              "Feedback to User" (joinNl sc.2)) "Student ID").getD "" = sid0 by
          rw [lookupRow_dictInsert_ne _ _ _ _ (by decide),
            lookupRow_dictInsert_ne _ _ _ _ (Ne.symm hsf_ne_sid), hsid]
          rfl]
        rw [hres]
        dsimp only
        rw [if_pos (show (true = true) from rfl)]
        refine congrArg some ?_
        apply List.map_congr_left
        intro fn hfn
        by_cases hftu : fn = "Feedback to User"
        · subst hftu
          rw [lookupRow_dictInsert_self, lookupRow_dictInsert_self]
        · by_cases hsf2 : fn = sf
          · subst hsf2
            rw [lookupRow_dictInsert_ne _ _ _ _ hftu, lookupRow_dictInsert_self,
              lookupRow_dictInsert_ne _ _ _ _ hftu, lookupRow_dictInsert_self]
          · rw [lookupRow_dictInsert_ne _ _ _ _ hftu,
              lookupRow_dictInsert_ne _ _ _ _ hsf2,
              lookupRow_zip_map _ _ _ hfn]
            rfl
    | none =>
      rw [hres] at h
      dsimp only at h
      have hout := (Option.some.inj h).symm
      subst hout
      have hkeys2 : (((header.map renameField).zip
          ((header.map renameField).map (fun fn =>
            (lookupRow
              (dictInsert (delKey (header.zip row) "Feedback to Learner") sf "0")
              fn).getD ""))).map Prod.fst) = header.map renameField :=
        List.map_fst_zip _ _ (le_of_eq (List.length_map _ _).symm)
      rw [dictOfPairs_nodup _ (by rw [hkeys2]; exact hnd)]
      rw [delKey_notmem _ _ (by
        intro kv hkv
        intro he
        exact ftl_notmem_rename header (he ▸ (List.of_mem_zip hkv).1))]
      rw [lookupRow_zip_map _ _ _ hsidfns]
      dsimp only
      rw [show (lookupRow
          (dictInsert (delKey (header.zip row) "Feedback to Learner") sf "0")
          "Student ID").getD "" = sid0 by
        rw [lookupRow_dictInsert_ne _ _ _ _ (Ne.symm hsf_ne_sid), hsid]
        rfl]
      rw [hres]
      dsimp only
      refine congrArg some ?_
      apply List.map_congr_left
      intro fn hfn
      by_cases hsf2 : fn = sf
      · subst hsf2
        rw [lookupRow_dictInsert_self, lookupRow_dictInsert_self]
      · rw [lookupRow_dictInsert_ne _ _ _ _ hsf2, lookupRow_zip_map _ _ _ hfn]
        rfl

/-- C7: running the gradebook write-back a second time on its own output,
with the same resolved mapping, reproduces that output exactly — no
accumulating banners or headers. -/
theorem c7_write_back_idempotent (t : Table)
    (resolved : String → Option (Int × List String)) (t' : Table)
    (hnd : (t.header.map renameField).Nodup)
    (hlen : ∀ r ∈ t.rows, r.length = t.header.length)
    (hw : writeBack t resolved = some t') :
    writeBack t' resolved = some t' := by
  simp only [writeBack] at hw ⊢
  cases hsf : findScoreField (t.header.map renameField) with
  | none => rw [hsf] at hw; exact absurd hw (by simp)
  | some sf =>
    rw [hsf] at hw
    dsimp only at hw
    cases hmr : mapRows (writeBackRow t.header (t.header.map renameField) sf resolved)
        t.rows with
    | none => rw [hmr] at hw; exact absurd hw (by simp)
    | some rows' =>
      rw [hmr] at hw
      dsimp only at hw
      have ht' : t' = ⟨t.header.map renameField, rows'⟩ := (Option.some.inj hw).symm
      subst ht'
      obtain ⟨hsub, _⟩ := findScoreField_spec _ _ hsf
      have hftl : "Feedback to Learner" ∉ t.header.map renameField :=
        ftl_notmem_rename t.header
      have hid : (t.header.map renameField).map renameField =
          t.header.map renameField := rename_id_of_no_ftl _ hftl
      dsimp only
      rw [hid, hsf]
      dsimp only
      have hfa := mapRows_forall2 _ _ _ hmr
      rw [mapRows_self _ rows' ?_]
      intro r' hr'
      obtain ⟨r, hr, hfr⟩ := forall2_exists_left hfa r' hr'
      exact writeBackRow_idem t.header resolved sf r r' hnd (hlen r hr) hsub hfr

/-- Witness for C7: a second write-back over the concrete output table
reproduces it exactly. -/
theorem c7_witness : writeBack tC5wOut resolvedC5 = some tC5wOut :=
  c7_write_back_idempotent tC5w resolvedC5 tC5wOut (by decide) (by decide)
    (by decide)
